import Mathlib

/-!
Shallow embedding of `duecredit/collector.py`: the citation bookkeeping core
(`DueCreditCollector.add`, `cite`, `dcite`, `CollectorGrave`, `Citation`) and
the claims of the specification about it.

Python dictionaries are modelled as association lists with insert-or-replace
semantics (an existing key keeps its position, a fresh key is appended, which
matches insertion-ordered Python dicts); in-place mutation of the collector
and of a `Citation` is modelled by explicit state passing, where the returned
`Citation` value coincides with the one stored in the citation mapping, as it
does for the shared mutable object in Python.  Raised exceptions are modelled
with `Except`; since Python mutates the collector in place, `cite` returns
the (possibly updated) collector alongside the `Except` outcome, so that a
raising call also documents the state it leaves behind.
-/

namespace Duecredit

/-- Modelled from the spec: `duecredit/entries.py` (class `DueCreditEntry`) is
imported by the collector but is not part of the sources under review.  Per the
spec an Entry is an immutable descriptor of a citable work exposing a stable
identity key via `get_key`, with descriptive metadata that is opaque to the
core. -/
structure DueCreditEntry where
  key : String
  metadata : String
  deriving DecidableEq, Repr

def DueCreditEntry.get_key (e : DueCreditEntry) : String :=
  e.key

/-- Python `str.endswith(suffix)`, on the character-list representation of
strings (kernel-computable, unlike the byte-indexed library version). -/
def strEndsWith (s suffix : String) : Bool :=
  List.isSuffixOf suffix.data s.data

/-- Helper for `pySplit`: split a character list on a separator character. -/
def splitChars (sep : Char) : List Char → List (List Char)
  | [] => [[]]
  | c :: rest =>
    let r := splitChars sep rest
    if c = sep then [] :: r
    else
      match r with
      | [] => [[c]]
      | g :: gs => (c :: g) :: gs

/-- Python `str.split(sep)` for a one-character separator: `""` yields `[""]`,
adjacent separators yield empty fields, exactly as in Python. -/
def pySplit (s : String) (sep : Char) : List String :=
  (splitChars sep s.data).map (fun l => ⟨l⟩)

/-- Python `str.lower()` (ASCII case mapping, which covers every identifier
the collector compares against). -/
def pyLower (s : String) : String :=
  ⟨s.data.map Char.toLower⟩

/-- Python `str.strip()`: drop leading and trailing whitespace. -/
def pyStrip (s : String) : String :=
  ⟨(((s.data.dropWhile Char.isWhitespace).reverse.dropWhile Char.isWhitespace).reverse)⟩

/-- Python `d[k]` lookup on the association-list model of a dict. -/
def dictGet (k : String) : List (String × α) → Option α
  | [] => none
  | (k', v) :: rest => if k' = k then some v else dictGet k rest

/-- Python `d[k] = v`: replace the first binding of `k` in place, or append a
fresh binding at the end (insertion-ordered dict semantics). -/
def dictInsert (k : String) (v : α) : List (String × α) → List (String × α)
  | [] => [(k, v)]
  | (k', v') :: rest =>
    if k' = k then (k, v) :: rest else (k', v') :: dictInsert k v rest

/-- Python `k in d`. -/
def dictContains (k : String) (l : List (String × α)) : Bool :=
  (dictGet k l).isSome

/-- Number of bindings of key `k` (1 for a well-formed dict that contains `k`). -/
def countKey (k : String) (l : List (String × α)) : Nat :=
  (l.filter (fun p => p.1 == k)).length

/-- `class Citation`: wraps an entry with `use`, `level` and a mutable counter
(`self._entry`, `self._use`, `self._level`, `self.count`). -/
structure Citation where
  _entry : DueCreditEntry
  _use : Option String
  _level : Option String
  count : Nat
  deriving DecidableEq, Repr

/-- The `level` property of `Citation`. -/
def Citation.level (c : Citation) : Option String :=
  c._level

/-- The `entry` property of `Citation`. -/
def Citation.entry (c : Citation) : DueCreditEntry :=
  c._entry

/-- `class DueCreditCollector`: `self._entries` and `self.citations`. -/
structure DueCreditCollector where
  _entries : List (String × DueCreditEntry)
  citations : List (String × Citation)
  deriving DecidableEq, Repr

/-- The argument shape accepted by `DueCreditCollector.add`: a single
`DueCreditEntry` or a (possibly nested) Python list of such arguments, since
`add` recurses with `isinstance(entry, list)`. -/
inductive AddArg where
  | entry (e : DueCreditEntry)
  | list (l : List AddArg)

mutual

/-- `DueCreditCollector.add`: for a list argument, recursively add each
element in order; for a single entry, `self._entries[entry.get_key()] = entry`. -/
def DueCreditCollector.add : DueCreditCollector → AddArg → DueCreditCollector
  | c, .entry e => { c with _entries := dictInsert e.get_key e c._entries }
  | c, .list l => DueCreditCollector.addList c l

/-- Helper for the list branch of `add`: the `for e in entry: self.add(e)` loop. -/
def DueCreditCollector.addList : DueCreditCollector → List AddArg → DueCreditCollector
  | c, [] => c
  | c, a :: rest => DueCreditCollector.addList (DueCreditCollector.add c a) rest

end

/-- Exceptions raised by `cite`: the `KeyError` from `self._entries[entry]`. -/
inductive CiteError where
  | keyError
  deriving DecidableEq, Repr

/-- The tail of `DueCreditCollector.cite` after the entry has been resolved
(lines `entry_key = entry_.get_key()` onwards): lazily create the `Citation`
with count 0, fetch the stored citation, increment its count in place, return
it.  In-place mutation is modelled by writing the incremented citation back;
the returned value and the stored value are the same, as in Python. -/
def citeResolved (c : DueCreditCollector) (entry_ : DueCreditEntry)
    (use level : Option String) : Except CiteError Citation × DueCreditCollector :=
  let entry_key := entry_.get_key
  let citation0 :=
    match dictGet entry_key c.citations with
    | some ct => ct
    | none => { _entry := entry_, _use := use, _level := level, count := 0 }
  let citation : Citation := { citation0 with count := citation0.count + 1 }
  (.ok citation, { c with citations := dictInsert entry_key citation c.citations })

/-- `DueCreditCollector.cite(entry, use=None, level=None)`: a `DueCreditEntry`
instance is first registered via `add`; a string key is looked up in
`self._entries`, raising `KeyError` when absent (the collector is returned
unchanged in that case, matching the Python code which raises before any
mutation). -/
def DueCreditCollector.cite (c : DueCreditCollector)
    (entry : Sum DueCreditEntry String) (use level : Option String) :
    Except CiteError Citation × DueCreditCollector :=
  match entry with
  | .inl e => citeResolved (c.add (.entry e)) e use level
  | .inr k =>
    match dictGet k c._entries with
    | some e => citeResolved c e use level
    | none => (.error .keyError, c)

/-- The count stored in the citation mapping at `k` (0 when no citation exists). -/
def citCount (c : DueCreditCollector) (k : String) : Nat :=
  match dictGet k c.citations with
  | some ct => ct.count
  | none => 0

/-- `n` successive `cite` calls with the same string key, collecting the
returned citations in call order. -/
def citeRuns (k : String) (use level : Option String) :
    Nat → DueCreditCollector → Except CiteError (List Citation × DueCreditCollector)
  | 0, c => .ok ([], c)
  | n + 1, c =>
    match c.cite (.inr k) use level with
    | (.ok ct, c') =>
      match citeRuns k use level n c' with
      | .ok (cts, c'') => .ok (ct :: cts, c'')
      | .error e => .error e
    | (.error e, _) => .error e

/-- A Python function as seen by `dcite`: its `__module__`, `__name__` and its
body; a raising body is modelled by `Except.error`. -/
structure PyFunc (α β ε : Type) where
  module : String
  name : String
  call : α → Except ε β

/-- The level string `'func %s.%s' % (func.__module__, func.__name__)` deduced
by `dcite` when no `level` keyword was supplied. -/
def funcDefaultLevel (f : PyFunc α β ε) : String :=
  "func " ++ f.module ++ "." ++ f.name

/-- The `cite_wrapper` closure produced by `dcite`: the captured `cite`
arguments (with `level` already resolved at decoration time) plus the wrapped
function's body. -/
structure CiteWrapper (α β ε : Type) where
  entry : Sum DueCreditEntry String
  use : Option String
  level : Option String
  call : α → Except ε β

/-- `DueCreditCollector.dcite(*args, **kwargs)` applied to a function:
if `'level' not in kwargs` (modelled by `levelArg = none`) the level is deduced
from the decorated function's module and name, once, at decoration time; the
result is the wrapper closure.  `levelArg = some lv` models `kwargs` containing
`level = lv`. -/
def dcite (entry : Sum DueCreditEntry String) (use : Option String)
    (levelArg : Option (Option String)) (func : PyFunc α β ε) : CiteWrapper α β ε :=
  { entry := entry
    use := use
    level :=
      match levelArg with
      | some lv => lv
      | none => some (funcDefaultLevel func)
    call := func.call }

/-- One invocation of the `cite_wrapper` closure on collector state `c`:
`citation = self.cite(*args, **kwargs); return func(*fargs, **fkwargs)`.
When `cite` raises, the wrapped function is never called; when it succeeds the
wrapped function's outcome (normal return or raise) is reported unchanged,
with the collector state already updated by the single `cite` call. -/
def callWrapper (c : DueCreditCollector) (w : CiteWrapper α β ε) (a : α) :
    Except CiteError (Except ε β) × DueCreditCollector :=
  match c.cite w.entry w.use w.level with
  | (.ok _, c') => (.ok (w.call a), c')
  | (.error e, c') => (.error e, c')

/-- The two process streams `sys.stdout` / `sys.stderr`. -/
inductive StdStream where
  | stdout
  | stderr
  deriving DecidableEq, Repr

/-- Modelled from the spec: `duecredit/io.py` (`TextOutput`, `PickleOutput`) is
imported by the collector but is not part of the sources under review.  A sink
is identified by its target: a text sink on a process stream, or a pickle sink
on a file path. -/
inductive OutputHandler where
  | text (stream : StdStream)
  | pickle (fn : String)
  deriving DecidableEq, Repr

/-- Modelled from the spec: `PickleOutput(collector, fn=fn)` persists to the
given file path, with default path `.duecredit.p` when none is supplied. -/
def pickleOutputFn (fn : Option String) : String :=
  fn.getD ".duecredit.p"

/-- The `NotImplementedError` raised by `CollectorGrave._get_output_handler`
for an unrecognized sink identifier. -/
inductive ConfigError where
  | notImplementedError
  deriving DecidableEq, Repr

/-- `CollectorGrave._get_output_handler(type_, collector, fn)`: `"stdout"` and
`"stderr"` yield a `TextOutput` on the corresponding stream, `"pickle"` yields
a `PickleOutput`, anything else raises `NotImplementedError`. -/
def getOutputHandler (type_ : String) (fn : Option String) :
    Except ConfigError OutputHandler :=
  if type_ = "stdout" then .ok (.text .stdout)
  else if type_ = "stderr" then .ok (.text .stderr)
  else if type_ = "pickle" then .ok (.pickle (pickleOutputFn fn))
  else .error .notImplementedError

/-- The sink list built by `CollectorGrave.__init__`:
`os.environ.get('DUECREDIT_OUTPUTS', 'stdout')` split on commas, non-empty raw
elements kept, each lower-cased and stripped and sent through the factory;
the first unrecognized identifier raises out of the constructor. -/
def collectorGraveOutputs (duecreditOutputs : Option String) (fn : Option String) :
    Except ConfigError (List OutputHandler) :=
  ((pySplit (duecreditOutputs.getD "stdout") ',').filter (fun t => t ≠ "")).mapM
    (fun t => getOutputHandler (pyStrip (pyLower t)) fn)

/-- `CollectorGrave.__del__`: `for output in self._outputs: output.dump()`.
`dump` is the (external) per-sink export action; the first component of the
result lists the sinks whose `dump` was actually invoked, the second is the
exception propagating out of `__del__`, if any.  A raising `dump` aborts the
loop: later sinks are never attempted. -/
def graveDel (dump : σ → Except ε Unit) : List σ → List σ × Option ε
  | [] => ([], none)
  | o :: rest =>
    match dump o with
    | .ok _ =>
      let r := graveDel dump rest
      (o :: r.1, r.2)
    | .error e => ([o], some e)

/-- What `DueCreditCollector.load` does with a recognized source: delegate to
the format-specific parser `_load_bib`. -/
inductive LoadAction where
  | loadBib (src : String)
  deriving DecidableEq, Repr

/-- Exceptions raised by `load`: `NotImplementedError('Format not yet
supported')` and `ValueError('Must be a string')`. -/
inductive LoadError where
  | notImplementedError (msg : String)
  | valueError (msg : String)
  deriving DecidableEq, Repr

/-- The dynamic type of `load`'s argument: a Python `str`, or anything else
(`isinstance(src, str)` is `False`). -/
inductive LoadSrc where
  | str (s : String)
  | nonString
  deriving DecidableEq, Repr

/-- `DueCreditCollector.load(src)`: a string ending in `.bib` is delegated to
`_load_bib`; any other string raises `NotImplementedError`; a non-string
raises `ValueError`. -/
def load (src : LoadSrc) : Except LoadError LoadAction :=
  match src with
  | .str s =>
    if strEndsWith s ".bib" then .ok (.loadBib s)
    else .error (.notImplementedError "Format not yet supported")
  | .nonString => .error (.valueError "Must be a string")

/-- The spec's Collector invariant: every key present in the citation mapping
is also present in the entry mapping. -/
def citationInvariant (c : DueCreditCollector) : Prop :=
  ∀ k, dictContains k c.citations = true → dictContains k c._entries = true

/-- Well-keyed entry mapping: every stored entry is registered under its own
key (true of every collector built through `add`/`cite`, but not enforced on
the mappings accepted by `DueCreditCollector.__init__`). -/
def wellKeyed (c : DueCreditCollector) : Prop :=
  ∀ k e, dictGet k c._entries = some e → e.get_key = k

/-! ### Dictionary lemmas -/

theorem dictGet_insert_self (k : String) (v : α) (l : List (String × α)) :
    dictGet k (dictInsert k v l) = some v := by
  induction l with
  | nil => simp [dictInsert, dictGet]
  | cons p rest ih =>
    obtain ⟨k', v'⟩ := p
    by_cases hk : k' = k <;> simp [dictInsert, dictGet, hk, ih]

theorem dictGet_insert_ne (k k' : String) (v : α) (l : List (String × α))
    (h : k' ≠ k) : dictGet k' (dictInsert k v l) = dictGet k' l := by
  induction l with
  | nil => simp [dictInsert, dictGet, Ne.symm h]
  | cons p rest ih =>
    obtain ⟨k'', v''⟩ := p
    by_cases hk : k'' = k
    · subst hk
      simp [dictInsert, dictGet, Ne.symm h]
    · simp [dictInsert, dictGet, hk, ih]

theorem dictContains_insert (k k' : String) (v : α) (l : List (String × α)) :
    dictContains k' (dictInsert k v l) = true ↔
      (k' = k ∨ dictContains k' l = true) := by
  by_cases h : k' = k
  · subst h; simp [dictContains, dictGet_insert_self]
  · simp [dictContains, dictGet_insert_ne k k' v l h, h]

theorem dictGet_insert_cases (k k' : String) (v w : α) (l : List (String × α))
    (h : dictGet k' (dictInsert k v l) = some w) :
    (k' = k ∧ w = v) ∨ (k' ≠ k ∧ dictGet k' l = some w) := by
  by_cases hk : k' = k
  · subst hk
    rw [dictGet_insert_self] at h
    exact Or.inl ⟨rfl, (Option.some.inj h).symm⟩
  · rw [dictGet_insert_ne k k' v l hk] at h
    exact Or.inr ⟨hk, h⟩

theorem countKey_insert_self (k : String) (v : α) (l : List (String × α))
    (h : countKey k l ≤ 1) : countKey k (dictInsert k v l) = 1 := by
  induction l with
  | nil => simp [countKey, dictInsert]
  | cons p rest ih =>
    obtain ⟨k', v'⟩ := p
    by_cases hk : k' = k
    · subst hk
      simp only [countKey, dictInsert, if_pos rfl, List.filter_cons, beq_self_eq_true,
        if_true, List.length_cons] at h ⊢
      omega
    · have hb : (k' == k) = false := beq_eq_false_iff_ne.mpr hk
      simp only [countKey, dictInsert, if_neg hk, List.filter_cons, hb] at h ⊢
      exact ih h

/-! ### Unfolding lemmas for `add`, `cite` and the wrapper -/

theorem add_entry_def (c : DueCreditCollector) (e : DueCreditEntry) :
    c.add (.entry e) = { c with _entries := dictInsert e.get_key e c._entries } := by
  simp [DueCreditCollector.add]

theorem add_list_def (c : DueCreditCollector) (l : List AddArg) :
    c.add (.list l) = c.addList l := by
  simp [DueCreditCollector.add]

theorem addList_nil_def (c : DueCreditCollector) : c.addList [] = c := by
  simp [DueCreditCollector.addList]

theorem addList_cons_def (c : DueCreditCollector) (a : AddArg) (rest : List AddArg) :
    c.addList (a :: rest) = (c.add a).addList rest := by
  simp [DueCreditCollector.addList]

/-- The resolved tail of `cite` creates-or-fetches and increments: its result
is fully described by the citation previously stored under the entry's key. -/
theorem citeResolved_eq (c : DueCreditCollector) (e : DueCreditEntry)
    (use level : Option String) :
    ∃ ct : Citation,
      citeResolved c e use level =
        (.ok ct, { c with citations := dictInsert e.get_key ct c.citations }) ∧
      ct.count = citCount c e.get_key + 1 ∧
      ct = (match dictGet e.get_key c.citations with
            | some ct0 => { ct0 with count := ct0.count + 1 }
            | none => { _entry := e, _use := use, _level := level, count := 1 }) := by
  cases hg : dictGet e.get_key c.citations with
  | some ct0 =>
    exact ⟨{ ct0 with count := ct0.count + 1 },
      by simp [citeResolved, hg], by simp [citCount, hg], by simp [hg]⟩
  | none =>
    exact ⟨{ _entry := e, _use := use, _level := level, count := 1 },
      by simp [citeResolved, hg], by simp [citCount, hg], by simp [hg]⟩

theorem cite_inr_found (c : DueCreditCollector) (k : String) (e : DueCreditEntry)
    (use level : Option String) (h : dictGet k c._entries = some e) :
    c.cite (.inr k) use level = citeResolved c e use level := by
  simp [DueCreditCollector.cite, h]

theorem cite_inr_missing (c : DueCreditCollector) (k : String)
    (use level : Option String) (h : dictGet k c._entries = none) :
    c.cite (.inr k) use level = (.error .keyError, c) := by
  simp [DueCreditCollector.cite, h]

theorem cite_inl_eq (c : DueCreditCollector) (e : DueCreditEntry)
    (use level : Option String) :
    c.cite (.inl e) use level =
      citeResolved { c with _entries := dictInsert e.get_key e c._entries }
        e use level := by
  simp [DueCreditCollector.cite, add_entry_def]

theorem callWrapper_snd (c : DueCreditCollector) (w : CiteWrapper α β ε) (a : α) :
    (callWrapper c w a).2 = (c.cite w.entry w.use w.level).2 := by
  unfold callWrapper
  rcases h : c.cite w.entry w.use w.level with ⟨r, c'⟩
  cases r <;> simp

/-! ### C3: citing an unregistered key -/

/-- C3: for every collector and key `k` absent from the entry mapping, `cite`
raises the `KeyError` not-found condition and returns the collector unchanged:
no citation is created and neither mapping is modified. -/
theorem cite_unregistered_key_error (c : DueCreditCollector) (k : String)
    (use level : Option String) (h : dictGet k c._entries = none) :
    c.cite (.inr k) use level = (.error .keyError, c) :=
  cite_inr_missing c k use level h

theorem cite_unregistered_key_error_witness :
    (DueCreditCollector.mk [] []).cite (.inr "nonexistent-key") none none =
      (.error .keyError, DueCreditCollector.mk [] []) :=
  cite_unregistered_key_error (DueCreditCollector.mk [] []) "nonexistent-key"
    none none rfl

/-! ### C9: `load` format dispatch -/

/-- C9: `load` delegates a string path ending in `.bib` to the bibliographic
parser, raises `NotImplementedError` for a string with any other extension,
raises `ValueError` for a non-string input, and never succeeds on a non-string
or unrecognized-extension input. -/
theorem load_format_dispatch :
    (∀ s : String, strEndsWith s ".bib" = true → load (.str s) = .ok (.loadBib s)) ∧
    (∀ s : String, strEndsWith s ".bib" = false →
      load (.str s) = .error (.notImplementedError "Format not yet supported")) ∧
    load .nonString = .error (.valueError "Must be a string") ∧
    (∀ (src : LoadSrc) (r : LoadAction), load src = .ok r →
      ∃ s, src = .str s ∧ strEndsWith s ".bib" = true) := by
  refine ⟨?_, ?_, rfl, ?_⟩
  · intro s h; simp [load, h]
  · intro s h; simp [load, h]
  · intro src r h
    cases src with
    | str s =>
      cases hb : strEndsWith s ".bib" with
      | true => exact ⟨s, rfl, hb⟩
      | false => simp [load, hb] at h
    | nonString => simp [load] at h

theorem load_format_dispatch_witness :
    strEndsWith "refs.bib" ".bib" = true ∧
    load (.str "refs.bib") = .ok (.loadBib "refs.bib") ∧
    strEndsWith "refs.txt" ".bib" = false ∧
    load (.str "refs.txt") = .error (.notImplementedError "Format not yet supported") :=
  ⟨by decide, load_format_dispatch.1 "refs.bib" (by decide), by decide,
    load_format_dispatch.2.1 "refs.txt" (by decide)⟩

/-! ### C4: sink failure during teardown -/

/-- A dump behaviour in which the pickle sink fails and the text sinks
succeed. -/
def dumpPickleFails : OutputHandler → Except Unit Unit
  | .pickle _ => .error ()
  | .text _ => .ok ()

/-- C4 counterexample: with the sinks configured as pickle-then-stdout and the
pickle dump failing, `__del__`'s bare loop never reaches the stdout sink — the
second configured sink does not attempt its export, contradicting the claim. -/
theorem sink_failure_blocks_later_sinks :
    (graveDel dumpPickleFails
        [OutputHandler.pickle ".duecredit.p", OutputHandler.text .stdout]).1 =
      [OutputHandler.pickle ".duecredit.p"] ∧
    OutputHandler.text .stdout ∉
      (graveDel dumpPickleFails
        [OutputHandler.pickle ".duecredit.p", OutputHandler.text .stdout]).1 ∧
    (graveDel dumpPickleFails
        [OutputHandler.pickle ".duecredit.p", OutputHandler.text .stdout]).2 =
      some () := by
  decide

/-- C4 amended: a failure while exporting to one sink aborts the teardown
loop — the sinks before the failing one have attempted their export, the
failing sink attempted its own, the exception propagates out of `__del__`,
and the sinks after the failing one never attempt theirs. -/
theorem graveDel_stops_at_first_failure {σ ε : Type} (dump : σ → Except ε Unit)
    (l1 l2 : List σ) (o : σ) (e : ε)
    (h1 : ∀ x ∈ l1, dump x = .ok ()) (h2 : dump o = .error e) :
    graveDel dump (l1 ++ o :: l2) = (l1 ++ [o], some e) := by
  induction l1 with
  | nil => simp [graveDel, h2]
  | cons hd tl ih =>
    have hhd := h1 hd (List.mem_cons_self hd tl)
    simp [graveDel, hhd, ih (fun x hx => h1 x (List.mem_cons_of_mem hd hx))]

theorem graveDel_stops_at_first_failure_witness :
    graveDel dumpPickleFails
        ([OutputHandler.text .stdout] ++
          OutputHandler.pickle "out.p" :: [OutputHandler.text .stderr]) =
      ([OutputHandler.text .stdout] ++ [OutputHandler.pickle "out.p"], some ()) :=
  graveDel_stops_at_first_failure dumpPickleFails [OutputHandler.text .stdout]
    [OutputHandler.text .stderr] (OutputHandler.pickle "out.p") ()
    (by intro x hx; rcases List.mem_singleton.mp hx with rfl; rfl) rfl

/-! ### C6: `add` over single entries and lists, latest-wins -/

/-- C6: `add` applied to a list of entries performs the single-entry insertion
on each element in order, and re-adding under an existing key replaces the
stored entry, so `add([A, A'])` with equal keys leaves exactly one entry under
that key — the latest one. -/
theorem add_list_and_overwrite :
    (∀ (c : DueCreditCollector) (es : List DueCreditEntry),
      c.add (.list (es.map AddArg.entry)) =
        es.foldl (fun acc e => acc.add (.entry e)) c) ∧
    (∀ (c : DueCreditCollector) (A A' : DueCreditEntry) (k : String),
      A.get_key = k → A'.get_key = k → countKey k c._entries ≤ 1 →
      dictGet k (c.add (.list [.entry A, .entry A']))._entries = some A' ∧
      countKey k (c.add (.list [.entry A, .entry A']))._entries = 1) := by
  constructor
  · intro c es
    rw [add_list_def]
    induction es generalizing c with
    | nil => rw [List.map_nil, addList_nil_def, List.foldl_nil]
    | cons e rest ih =>
      rw [List.map_cons, addList_cons_def, List.foldl_cons, ih]
  · intro c A A' k hA hA' hcnt
    rw [add_list_def, addList_cons_def, addList_cons_def, addList_nil_def,
      add_entry_def, add_entry_def]
    simp only [hA, hA']
    have h1 : countKey k (dictInsert k A c._entries) = 1 :=
      countKey_insert_self k A c._entries hcnt
    exact ⟨dictGet_insert_self k A' (dictInsert k A c._entries),
      countKey_insert_self k A' (dictInsert k A c._entries) (le_of_eq h1)⟩

theorem add_list_and_overwrite_witness :
    dictGet "K"
        ((DueCreditCollector.mk [] []).add
          (.list [.entry ⟨"K", "v1"⟩, .entry ⟨"K", "v2"⟩]))._entries =
      some ⟨"K", "v2"⟩ ∧
    countKey "K"
        ((DueCreditCollector.mk [] []).add
          (.list [.entry ⟨"K", "v1"⟩, .entry ⟨"K", "v2"⟩]))._entries = 1 :=
  add_list_and_overwrite.2 (DueCreditCollector.mk [] []) ⟨"K", "v1"⟩ ⟨"K", "v2"⟩
    "K" rfl rfl (by decide)

/-! ### C10: citing a new entry instance under an existing citation's key -/

/-- C10: when a citation already exists for key `k` and `cite` is called with
a new entry instance whose key is `k`, the entry mapping at `k` is overwritten
with the new entry while the pre-existing citation (count incremented) is
returned, its `entry` attribute still referencing the entry it was created
with — so the citation's entry and the entry mapping at `k` differ. -/
theorem cite_new_entry_keeps_old_citation (c : DueCreditCollector) (k : String)
    (E' : DueCreditEntry) (ct : Citation) (use level : Option String)
    (hk : E'.get_key = k) (hct : dictGet k c.citations = some ct)
    (hne : ct.entry ≠ E') :
    (c.cite (.inl E') use level).1 = .ok { ct with count := ct.count + 1 } ∧
    dictGet k ((c.cite (.inl E') use level).2)._entries = some E' ∧
    (dictGet k ((c.cite (.inl E') use level).2).citations).map Citation.entry =
      some ct.entry ∧
    (dictGet k ((c.cite (.inl E') use level).2).citations).map Citation.entry ≠
      dictGet k ((c.cite (.inl E') use level).2)._entries := by
  rw [cite_inl_eq]
  rw [show citeResolved { c with _entries := dictInsert E'.get_key E' c._entries }
      E' use level =
    (.ok { ct with count := ct.count + 1 },
      { _entries := dictInsert E'.get_key E' c._entries,
        citations := dictInsert E'.get_key { ct with count := ct.count + 1 }
          c.citations }) from by
    simp [citeResolved, hk, hct]]
  refine ⟨rfl, ?_, ?_, ?_⟩
  · rw [hk]; exact dictGet_insert_self k E' c._entries
  · rw [hk, dictGet_insert_self]; rfl
  · rw [hk, dictGet_insert_self, dictGet_insert_self]
    intro h
    exact hne (by simpa [Citation.entry] using h)

theorem cite_new_entry_keeps_old_citation_witness :
    ((DueCreditCollector.mk [("k", ⟨"k", "old"⟩)]
        [("k", ⟨⟨"k", "old"⟩, none, none, 1⟩)]).cite
      (.inl ⟨"k", "new"⟩) none none).1 =
        .ok { (⟨⟨"k", "old"⟩, none, none, 1⟩ : Citation) with count := 1 + 1 } ∧
    dictGet "k" (((DueCreditCollector.mk [("k", ⟨"k", "old"⟩)]
        [("k", ⟨⟨"k", "old"⟩, none, none, 1⟩)]).cite
      (.inl ⟨"k", "new"⟩) none none).2)._entries = some ⟨"k", "new"⟩ ∧
    (dictGet "k" (((DueCreditCollector.mk [("k", ⟨"k", "old"⟩)]
        [("k", ⟨⟨"k", "old"⟩, none, none, 1⟩)]).cite
      (.inl ⟨"k", "new"⟩) none none).2).citations).map Citation.entry =
      some (Citation.entry ⟨⟨"k", "old"⟩, none, none, 1⟩) ∧
    (dictGet "k" (((DueCreditCollector.mk [("k", ⟨"k", "old"⟩)]
        [("k", ⟨⟨"k", "old"⟩, none, none, 1⟩)]).cite
      (.inl ⟨"k", "new"⟩) none none).2).citations).map Citation.entry ≠
      dictGet "k" (((DueCreditCollector.mk [("k", ⟨"k", "old"⟩)]
        [("k", ⟨⟨"k", "old"⟩, none, none, 1⟩)]).cite
      (.inl ⟨"k", "new"⟩) none none).2)._entries :=
  cite_new_entry_keeps_old_citation
    (DueCreditCollector.mk [("k", ⟨"k", "old"⟩)]
      [("k", ⟨⟨"k", "old"⟩, none, none, 1⟩)])
    "k" ⟨"k", "new"⟩ ⟨⟨"k", "old"⟩, none, none, 1⟩ none none rfl rfl (by decide)

/-! ### C2: the `dcite` wrapper cites once and delegates -/

/-- Every successful `cite` inserts the returned citation at the resolved key
with count one above the previously stored count. -/
theorem cite_ok_citations (c : DueCreditCollector)
    (eref : Sum DueCreditEntry String) (use level : Option String)
    (ct : Citation) (c' : DueCreditCollector)
    (h : c.cite eref use level = (.ok ct, c')) :
    ∃ k, c'.citations = dictInsert k ct c.citations ∧
      ct.count = citCount c k + 1 := by
  cases eref with
  | inl e =>
    rw [cite_inl_eq] at h
    obtain ⟨ct0, heq, hcount, -⟩ :=
      citeResolved_eq { c with _entries := dictInsert e.get_key e c._entries }
        e use level
    rw [heq] at h
    obtain ⟨h1, h2⟩ := Prod.mk.injEq .. |>.mp h
    cases Except.ok.inj h1
    exact ⟨e.get_key, by rw [← h2], hcount⟩
  | inr k =>
    cases hg : dictGet k c._entries with
    | none =>
      rw [cite_inr_missing c k use level hg] at h
      exact absurd (Prod.mk.injEq .. |>.mp h).1 (by simp)
    | some e =>
      rw [cite_inr_found c k e use level hg] at h
      obtain ⟨ct0, heq, hcount, -⟩ := citeResolved_eq c e use level
      rw [heq] at h
      obtain ⟨h1, h2⟩ := Prod.mk.injEq .. |>.mp h
      cases Except.ok.inj h1
      exact ⟨e.get_key, by rw [← h2], hcount⟩

/-- C2: one invocation of a `dcite`-wrapped function performs exactly one
`cite` call before delegating: the wrapped function's outcome (normal return
or raise) is reported unchanged, and the collector state after the call has
the resolved key's count incremented by exactly one with every other key's
count untouched — also when the wrapped function raises. -/
theorem dcite_wrapper_single_cite_and_delegates {α β ε : Type}
    (c : DueCreditCollector) (w : CiteWrapper α β ε) (a : α)
    (ct : Citation) (c' : DueCreditCollector)
    (h : c.cite w.entry w.use w.level = (.ok ct, c')) :
    callWrapper c w a = (.ok (w.call a), c') ∧
    ∃ k, citCount c' k = citCount c k + 1 ∧
      ∀ k', k' ≠ k → citCount c' k' = citCount c k' := by
  constructor
  · unfold callWrapper
    rw [h]
  · obtain ⟨k, hc, hcount⟩ := cite_ok_citations c w.entry w.use w.level ct c' h
    refine ⟨k, ?_, ?_⟩
    · rw [show citCount c' k = ct.count from by
        simp [citCount, hc, dictGet_insert_self]]
      exact hcount
    · intro k' hk'
      simp [citCount, hc, dictGet_insert_ne k k' ct c.citations hk']

def c2Entry : DueCreditEntry := ⟨"K1", "meta"⟩

def c2Collector : DueCreditCollector := ⟨[("K1", c2Entry)], []⟩

def c2Func : PyFunc Nat Nat Unit := ⟨"mod", "f", fun n => .ok (n + 1)⟩

def c2Wrapper : CiteWrapper Nat Nat Unit := dcite (.inr "K1") none (some none) c2Func

def c2Citation : Citation := ⟨c2Entry, none, none, 1⟩

def c2After : DueCreditCollector := ⟨[("K1", c2Entry)], [("K1", c2Citation)]⟩

theorem dcite_wrapper_single_cite_and_delegates_witness :
    callWrapper c2Collector c2Wrapper 5 = (.ok (.ok 6), c2After) ∧
    ∃ k, citCount c2After k = citCount c2Collector k + 1 ∧
      ∀ k', k' ≠ k → citCount c2After k' = citCount c2Collector k' :=
  dcite_wrapper_single_cite_and_delegates c2Collector c2Wrapper 5 c2Citation
    c2After rfl

/-! ### C5: level deduction at decoration time -/

/-- C5: decorating a function via `dcite` without a `level` in the captured
arguments stores `"func <module>.<name>"` — built from the decorated
function's defining module and name — as the wrapper's level once, at
decoration time, and the citation created by invoking the wrapped function
carries exactly that level. -/
theorem dcite_level_deduction {α β ε : Type} (f : PyFunc α β ε)
    (use : Option String) (k : String) (e : DueCreditEntry)
    (c : DueCreditCollector) (a : α)
    (he : dictGet k c._entries = some e) (hk : e.get_key = k)
    (hfresh : dictGet k c.citations = none) :
    (dcite (.inr k) use none f).level =
      some ("func " ++ f.module ++ "." ++ f.name) ∧
    dictGet k ((callWrapper c (dcite (.inr k) use none f) a).2).citations =
      some { _entry := e, _use := use,
             _level := some ("func " ++ f.module ++ "." ++ f.name),
             count := 1 } := by
  constructor
  · rfl
  · rw [callWrapper_snd]
    rw [show (dcite (.inr k) use none f).entry = .inr k from rfl,
      show (dcite (.inr k) use none f).use = use from rfl,
      show (dcite (.inr k) use none f).level =
        some (funcDefaultLevel f) from rfl]
    rw [cite_inr_found c k e use (some (funcDefaultLevel f)) he]
    simp [citeResolved, hk, hfresh, dictGet_insert_self, funcDefaultLevel]

def c5Func : PyFunc Nat Nat Unit := ⟨"mymodule", "purpose_of_life", fun n => .ok n⟩

def c5Entry : DueCreditEntry := ⟨"XXX00", "meta"⟩

def c5Collector : DueCreditCollector := ⟨[("XXX00", c5Entry)], []⟩

theorem dcite_level_deduction_witness :
    (dcite (.inr "XXX00") none none c5Func).level =
      some ("func " ++ "mymodule" ++ "." ++ "purpose_of_life") ∧
    dictGet "XXX00"
        ((callWrapper c5Collector (dcite (.inr "XXX00") none none c5Func) 0).2).citations =
      some { _entry := c5Entry, _use := none,
             _level := some ("func " ++ "mymodule" ++ "." ++ "purpose_of_life"),
             count := 1 } :=
  dcite_level_deduction c5Func none "XXX00" c5Entry c5Collector 0 rfl rfl rfl

/-! ### C1: lazy creation, sharing and counting of citations -/

/-- One `cite` step on a registered key whose stored citation (if any) is
`⟨e, use, level, m⟩`: the call returns the citation with count `m + 1` and
stores exactly that citation back under the key. -/
theorem cite_key_step (c : DueCreditCollector) (k : String) (e : DueCreditEntry)
    (use level : Option String) (m : Nat)
    (he : dictGet k c._entries = some e) (hk : e.get_key = k)
    (hst : dictGet k c.citations =
      (if m = 0 then none
       else some { _entry := e, _use := use, _level := level, count := m })) :
    c.cite (.inr k) use level =
      (.ok { _entry := e, _use := use, _level := level, count := m + 1 },
       { c with citations :=
          dictInsert k (⟨e, use, level, m + 1⟩ : Citation) c.citations }) := by
  rw [cite_inr_found c k e use level he]
  cases m with
  | zero =>
    rw [if_pos rfl] at hst
    simp [citeResolved, hk, hst]
  | succ m' =>
    rw [if_neg (Nat.succ_ne_zero m')] at hst
    simp [citeResolved, hk, hst]

/-- Unfolding of `citeRuns` for a successful first call followed by a
successful rest. -/
theorem citeRuns_succ_ok (k : String) (use level : Option String) (n : Nat)
    (c c' : DueCreditCollector) (ct : Citation) (cts : List Citation)
    (cn : DueCreditCollector)
    (h : c.cite (.inr k) use level = (.ok ct, c'))
    (h2 : citeRuns k use level n c' = .ok (cts, cn)) :
    citeRuns k use level (n + 1) c = .ok (ct :: cts, cn) := by
  show (match c.cite (.inr k) use level with
        | (.ok ct0, c0) =>
          match citeRuns k use level n c0 with
          | .ok (cts0, cn0) => Except.ok (ct0 :: cts0, cn0)
          | .error err => .error err
        | (.error err, _) => .error err) = .ok (ct :: cts, cn)
  rw [h]
  show (match citeRuns k use level n c' with
        | .ok (cts0, cn0) => Except.ok (ct :: cts0, cn0)
        | .error err => .error err) = .ok (ct :: cts, cn)
  rw [h2]

/-- `n` further `cite` calls on a registered key starting from stored count
`m`: the calls return counts `m + 1, …, m + n` with the fixed entry, `use`
and `level` of creation time, and the stored citation ends at count `m + n`. -/
theorem citeRuns_spec (k : String) (use level : Option String)
    (e : DueCreditEntry) (hk : e.get_key = k) :
    ∀ (n m : Nat) (c : DueCreditCollector),
      dictGet k c._entries = some e →
      dictGet k c.citations =
        (if m = 0 then none
         else some { _entry := e, _use := use, _level := level, count := m }) →
      ∃ cn, citeRuns k use level n c =
          .ok ((List.range n).map
            (fun i => { _entry := e, _use := use, _level := level,
                        count := m + i + 1 }), cn) ∧
        dictGet k cn._entries = some e ∧
        dictGet k cn.citations =
          (if m + n = 0 then none
           else some { _entry := e, _use := use, _level := level, count := m + n }) := by
  intro n
  induction n with
  | zero =>
    intro m c he hst
    exact ⟨c, rfl, he, by simpa using hst⟩
  | succ n' ih =>
    intro m c he hst
    have hstep := cite_key_step c k e use level m he hk hst
    obtain ⟨cn, hrun, hent, hstore⟩ :=
      ih (m + 1)
        { c with citations :=
            dictInsert k (⟨e, use, level, m + 1⟩ : Citation) c.citations }
        he
        (by rw [if_neg (Nat.succ_ne_zero m)]; exact dictGet_insert_self ..)
    refine ⟨cn, ?_, hent, ?_⟩
    · rw [citeRuns_succ_ok k use level n' c _ _ _ _ hstep hrun]
      have hlist : (List.range (n' + 1)).map
          (fun i => ({ _entry := e, _use := use, _level := level,
                       count := m + i + 1 } : Citation)) =
          { _entry := e, _use := use, _level := level, count := m + 1 } ::
            (List.range n').map
              (fun i => { _entry := e, _use := use, _level := level,
                          count := m + 1 + i + 1 }) := by
        rw [List.range_succ_eq_map, List.map_cons, List.map_map]
        refine congrArg₂ _ (by simp) (List.map_congr_left fun i _ => ?_)
        simp only [Function.comp_apply, Citation.mk.injEq, Nat.succ_eq_add_one,
          true_and]
        omega
      rw [hlist]
    · rw [show m + 1 + n' = m + (n' + 1) from by omega] at hstore
      exact hstore

/-- C1: on a collector where key `k` is registered and has no citation yet,
`n` successive `cite` calls for `k` lazily create one shared citation: call
number `i` returns the citation with count `i` (fields fixed at creation),
and after all `n` calls the citation stored under `k` is the one the last
call returned, with count `n`; no citation exists when `n = 0`. -/
theorem cite_lazy_unique_counting (c : DueCreditCollector) (k : String)
    (e : DueCreditEntry) (use level : Option String) (n : Nat)
    (he : dictGet k c._entries = some e) (hk : e.get_key = k)
    (h0 : dictGet k c.citations = none) :
    ∃ cn, citeRuns k use level n c =
        .ok ((List.range n).map
          (fun i => { _entry := e, _use := use, _level := level, count := i + 1 }),
          cn) ∧
      dictGet k cn.citations =
        (if n = 0 then none
         else some { _entry := e, _use := use, _level := level, count := n }) := by
  obtain ⟨cn, hrun, -, hstore⟩ :=
    citeRuns_spec k use level e hk n 0 c he (by simpa using h0)
  refine ⟨cn, ?_, by simpa using hstore⟩
  rw [hrun]
  refine congrArg _ (congrArg₂ _ (List.map_congr_left fun i _ => ?_) rfl)
  simp

def c1Entry : DueCreditEntry := ⟨"k1", "meta"⟩

def c1Collector : DueCreditCollector := ⟨[("k1", c1Entry)], []⟩

theorem cite_lazy_unique_counting_witness :
    ∃ cn, citeRuns "k1" none none 2 c1Collector =
        .ok ((List.range 2).map
          (fun i => { _entry := c1Entry, _use := none, _level := none,
                      count := i + 1 }), cn) ∧
      dictGet "k1" cn.citations =
        (if 2 = 0 then none
         else some { _entry := c1Entry, _use := none, _level := none, count := 2 }) :=
  cite_lazy_unique_counting c1Collector "k1" c1Entry none none 2 rfl rfl rfl

/-! ### C7: the citation-key invariant -/

mutual

/-- `add` leaves the citation mapping untouched, only grows the key set of the
entry mapping, and preserves well-keyedness. -/
theorem add_props : ∀ (a : AddArg) (c : DueCreditCollector),
    (c.add a).citations = c.citations ∧
    (∀ k, dictContains k c._entries = true →
      dictContains k (c.add a)._entries = true) ∧
    (wellKeyed c → wellKeyed (c.add a))
  | .entry e, c => by
    rw [add_entry_def]
    refine ⟨rfl, ?_, ?_⟩
    · intro k hk
      exact (dictContains_insert e.get_key k e c._entries).mpr (Or.inr hk)
    · intro hwk k w hw
      rcases dictGet_insert_cases e.get_key k e w c._entries hw with
        ⟨rfl, rfl⟩ | ⟨-, hw'⟩
      · rfl
      · exact hwk k w hw'
  | .list l, c => by
    rw [add_list_def]
    exact addList_props l c

/-- The `addList` form of `add_props`. -/
theorem addList_props : ∀ (l : List AddArg) (c : DueCreditCollector),
    (c.addList l).citations = c.citations ∧
    (∀ k, dictContains k c._entries = true →
      dictContains k (c.addList l)._entries = true) ∧
    (wellKeyed c → wellKeyed (c.addList l))
  | [], c => by
    rw [addList_nil_def]
    exact ⟨rfl, fun k hk => hk, fun h => h⟩
  | a :: rest, c => by
    rw [addList_cons_def]
    obtain ⟨h1, h2, h3⟩ := add_props a c
    obtain ⟨h1', h2', h3'⟩ := addList_props rest (c.add a)
    exact ⟨h1'.trans h1, fun k hk => h2' k (h2 k hk), fun h => h3' (h3 h)⟩

end

/-- `cite` preserves the invariant and well-keyedness on a well-keyed
collector, whatever its outcome. -/
theorem cite_preserves_invariant (c : DueCreditCollector)
    (hinv : citationInvariant c) (hwk : wellKeyed c)
    (eref : Sum DueCreditEntry String) (use level : Option String) :
    citationInvariant (c.cite eref use level).2 ∧
      wellKeyed (c.cite eref use level).2 := by
  cases eref with
  | inl e =>
    rw [cite_inl_eq]
    obtain ⟨ct, heq, -, -⟩ :=
      citeResolved_eq { c with _entries := dictInsert e.get_key e c._entries }
        e use level
    rw [heq]
    obtain ⟨-, hmono, hwk'⟩ := add_props (.entry e) c
    rw [add_entry_def] at hmono hwk'
    constructor
    · intro k hk
      rcases (dictContains_insert e.get_key k ct c.citations).mp hk with
        rfl | hold
      · exact (dictContains_insert e.get_key e.get_key e c._entries).mpr (Or.inl rfl)
      · exact hmono k (hinv k hold)
    · exact hwk' hwk
  | inr k =>
    cases hg : dictGet k c._entries with
    | none =>
      rw [cite_inr_missing c k use level hg]
      exact ⟨hinv, hwk⟩
    | some e =>
      rw [cite_inr_found c k e use level hg]
      obtain ⟨ct, heq, -, -⟩ := citeResolved_eq c e use level
      rw [heq]
      have hek : e.get_key = k := hwk k e hg
      constructor
      · intro k' hk'
        rcases (dictContains_insert e.get_key k' ct c.citations).mp hk' with
          rfl | hold
        · rw [hek]
          simp [dictContains, hg]
        · exact hinv k' hold
      · exact hwk

/-- C7 counterexample: `DueCreditCollector.__init__` accepts arbitrary
mappings, so a collector whose entry mapping stores under key `"a"` an entry
whose own key is `"b"` satisfies the invariant (its citation mapping is
empty), yet a single `cite("a")` call creates a citation under `"b"` — a key
absent from the entry mapping — breaking the invariant. -/
theorem cite_breaks_invariant_on_miskeyed_entries :
    citationInvariant (DueCreditCollector.mk [("a", ⟨"b", "meta"⟩)] []) ∧
    ¬ citationInvariant
      ((DueCreditCollector.mk [("a", ⟨"b", "meta"⟩)] []).cite
        (.inr "a") none none).2 := by
  constructor
  · intro k h
    simp [dictContains, dictGet] at h
  · intro hinv
    exact absurd (hinv "b" rfl) (by decide)

/-- C7 amended: on every collector that satisfies the invariant and whose
entry mapping is additionally well-keyed (each stored entry registered under
its own key — true of all collectors built through the API, but not enforced
on the mappings `__init__` accepts), the invariant and well-keyedness are
preserved by `add`, by `cite`, and by invocations of `dcite`-wrapped
functions. -/
theorem collector_invariant_preserved (c : DueCreditCollector)
    (hinv : citationInvariant c) (hwk : wellKeyed c) :
    (∀ a : AddArg, citationInvariant (c.add a) ∧ wellKeyed (c.add a)) ∧
    (∀ (eref : Sum DueCreditEntry String) (use level : Option String),
      citationInvariant (c.cite eref use level).2 ∧
        wellKeyed (c.cite eref use level).2) ∧
    (∀ (α β ε : Type) (w : CiteWrapper α β ε) (a : α),
      citationInvariant (callWrapper c w a).2 ∧
        wellKeyed (callWrapper c w a).2) := by
  refine ⟨?_, cite_preserves_invariant c hinv hwk, ?_⟩
  · intro a
    obtain ⟨hcit, hmono, hwk'⟩ := add_props a c
    constructor
    · intro k hk
      rw [hcit] at hk
      exact hmono k (hinv k hk)
    · exact hwk' hwk
  · intro α β ε w a
    rw [callWrapper_snd]
    exact cite_preserves_invariant c hinv hwk w.entry w.use w.level

theorem collector_invariant_preserved_witness :
    citationInvariant (DueCreditCollector.mk [("k1", ⟨"k1", "m"⟩)] []) ∧
    wellKeyed (DueCreditCollector.mk [("k1", ⟨"k1", "m"⟩)] []) ∧
    (citationInvariant
        ((DueCreditCollector.mk [("k1", ⟨"k1", "m"⟩)] []).cite
          (.inr "k1") none none).2 ∧
      wellKeyed
        ((DueCreditCollector.mk [("k1", ⟨"k1", "m"⟩)] []).cite
          (.inr "k1") none none).2) := by
  have hinv : citationInvariant (DueCreditCollector.mk [("k1", ⟨"k1", "m"⟩)] []) := by
    intro k h
    simp [dictContains, dictGet] at h
  have hwk : wellKeyed (DueCreditCollector.mk [("k1", ⟨"k1", "m"⟩)] []) := by
    intro k e h
    rcases dictGet_insert_cases "k1" k ⟨"k1", "m"⟩ e [] (by simpa [dictInsert] using h)
      with ⟨rfl, rfl⟩ | ⟨-, h'⟩
    · rfl
    · simp [dictGet] at h'
  exact ⟨hinv, hwk,
    (collector_invariant_preserved (DueCreditCollector.mk [("k1", ⟨"k1", "m"⟩)] [])
      hinv hwk).2.1 (.inr "k1") none none⟩

/-! ### C8: sink selection at `CollectorGrave` construction -/

/-- If any element of the list maps to the configuration error, the whole
`mapM` of the constructor's comprehension is that error. -/
theorem exceptMapM_config_error {α β : Type} (f : α → Except ConfigError β)
    (l : List α) (x : α) (hx : x ∈ l)
    (hf : f x = .error .notImplementedError) :
    l.mapM f = .error .notImplementedError := by
  induction l with
  | nil => cases hx
  | cons hd tl ih =>
    rw [List.mapM_cons]
    rcases List.mem_cons.mp hx with rfl | hx'
    · rw [hf]; rfl
    · cases hhd : f hd with
      | error e => cases e; rfl
      | ok b =>
        rw [show ((Except.ok b : Except ConfigError β) >>= fun b =>
            tl.mapM f >>= fun bs => pure (b :: bs)) =
          (tl.mapM f >>= fun bs => pure (b :: bs)) from rfl]
        rw [ih hx']
        rfl

/-- C8: at `CollectorGrave` construction the comma-separated
`DUECREDIT_OUTPUTS` setting selects the sinks — `stdout` and `stderr` yield
text sinks on the corresponding stream, `pickle` a binary-snapshot sink with
default path `.duecredit.p`; an unset setting defaults to stdout only; and any
element whose lower-cased, stripped form is unrecognized makes construction
fail with `NotImplementedError` rather than being silently ignored. -/
theorem collector_grave_sink_selection :
    collectorGraveOutputs none none = .ok [.text .stdout] ∧
    collectorGraveOutputs (some "stdout,stderr") none =
      .ok [.text .stdout, .text .stderr] ∧
    collectorGraveOutputs (some "pickle") none = .ok [.pickle ".duecredit.p"] ∧
    (∀ (setting fn : Option String) (t : String),
      t ∈ (pySplit (setting.getD "stdout") ',').filter (fun t => t ≠ "") →
      pyStrip (pyLower t) ≠ "stdout" →
      pyStrip (pyLower t) ≠ "stderr" →
      pyStrip (pyLower t) ≠ "pickle" →
      collectorGraveOutputs setting fn = .error .notImplementedError) := by
  refine ⟨rfl, rfl, rfl, ?_⟩
  intro setting fn t ht h1 h2 h3
  exact exceptMapM_config_error (fun t => getOutputHandler (pyStrip (pyLower t)) fn)
    _ t ht (by simp [getOutputHandler, h1, h2, h3])

theorem collector_grave_sink_selection_witness :
    collectorGraveOutputs (some "bogus") none = .error .notImplementedError :=
  collector_grave_sink_selection.2.2.2 (some "bogus") none "bogus"
    (by decide) (by decide) (by decide) (by decide)

end Duecredit
